import Mathlib

/-!
Verification of the fixed-point arithmetic core of the `ltitop` library
(`ltitop.arithmetic`): intervals, rounding policies, overflow policies,
fixed-point formats, representations, the two arithmetic logic units, the
active processing-unit context and the structured overflow/underflow errors.

The Python sources are shallowly embedded: machine integers become `ℤ`,
exact real scalars (mpmath high-precision floats applied to dyadic values)
become `ℚ`, and code paths that raise Python exceptions become `Except PyErr`.
Checks guarded by `__debug__` (dataclass `__post_init__` validation, `assert`
statements, operand-format checks) are modelled as performed, which matches
the default Python configuration the test suite runs under.
-/

/-- Kinds of Python exceptions the embedded code can raise.  `underflowError`
and `overflowError` stand for the structured `ltitop.arithmetic.errors`
exceptions; the remaining constructors are builtin Python exception types. -/
inductive PyErr where
  | valueError
  | typeError
  | nameError
  | attributeError
  | indexError
  | runtimeError
  | assertionError
  | underflowError
  | overflowError
  deriving DecidableEq, Repr

deriving instance DecidableEq for Except

/-- The `Interval` class of `ltitop.arithmetic.interval`: a pair of bounds
(named `PyInterval` here because Mathlib already owns the name `Interval`).
The Python class holds scalars or arrays; we model the scalar case, over an
ordered scalar type `α` (`ℤ` for mantissa intervals, `ℚ` for value
intervals). -/
structure PyInterval (α : Type) where
  lower_bound : α
  upper_bound : α
  deriving DecidableEq, Repr

/-- Checked construction of a `PyInterval`: `__post_init__` raises `ValueError`
when the upper bound is below the lower bound (lines 36-49 of interval.py). -/
def mkInterval {α : Type} [LinearOrder α] (lo hi : α) : Except PyErr (PyInterval α) :=
  if hi < lo then .error .valueError else .ok ⟨lo, hi⟩

/-- Single-argument construction `PyInterval(x)` for a scalar `x`: the
`__post_init__` tuple probe fails with `TypeError` (caught), so the upper
bound is set equal to the lower bound, and the bound check then passes. -/
def mkIntervalScalar {α : Type} [LinearOrder α] (x : α) : Except PyErr (PyInterval α) :=
  mkInterval x x

/-- `PyInterval.__add__` on two intervals: bound-wise addition. -/
def PyInterval.add {α : Type} [Add α] (i j : PyInterval α) : PyInterval α :=
  ⟨i.lower_bound + j.lower_bound, i.upper_bound + j.upper_bound⟩

/-- `PyInterval.__nonzero__` / `__bool__`: an interval is truthy iff its bounds
differ (`bool(np.all(self.lower_bound != self.upper_bound))`). -/
def PyInterval.nonzero {α : Type} [DecidableEq α] (i : PyInterval α) : Bool :=
  i.lower_bound != i.upper_bound

/-- Scalar membership test `value in interval` (`PyInterval.__contains__`). -/
def PyInterval.containsB {α : Type} [LinearOrder α] (i : PyInterval α) (v : α) : Bool :=
  decide (i.lower_bound ≤ v ∧ v ≤ i.upper_bound)

/-! ## Rounding policies (`ltitop.arithmetic.rounding`) -/

/-- `floor.shift(value, n)`: a positive `n` is an exact left shift, a negative
`n` is Python's arithmetic right shift, i.e. floor division by `2^(-n)`
(Lean's `/` on `ℤ` is Euclidean division, which agrees with floor division
for the positive divisors used here). -/
def floorShift (value n : ℤ) : ℤ :=
  if 0 < n then value * 2 ^ n.toNat
  else if n < 0 then value / 2 ^ (-n).toNat
  else value

/-- `ceil.shift(value, n) = -floor.shift(-value, n)`. -/
def ceilShift (value n : ℤ) : ℤ :=
  -(floorShift (-value) n)

/-- `nearest_integer.shift(value, n)`: `floor.shift` plus, for negative `n`,
the parity-correct rounding bit `(value >> (-n - 1)) % 2`. -/
def nearestShift (value n : ℤ) : ℤ :=
  let result := floorShift value n
  if n < 0 then result + (value / 2 ^ (-n - 1).toNat) % 2 else result

/-- Python's `round` (and mpmath's) on an exact value: round to nearest with
ties to even. -/
def roundHalfEven (q : ℚ) : ℤ :=
  if q - ⌊q⌋ < 1 / 2 then ⌊q⌋
  else if 1 / 2 < q - ⌊q⌋ then ⌊q⌋ + 1
  else if ⌊q⌋ % 2 = 0 then ⌊q⌋ else ⌊q⌋ + 1

/-- `math.trunc`: rounding toward zero. -/
def pytrunc (q : ℚ) : ℤ :=
  if q < 0 then ⌈q⌉ else ⌊q⌋

/-- The rounding-method objects that can be passed to `Format.represent`:
the four policy classes of `ltitop.arithmetic.rounding`, plus Python's
builtin `round`, which is the *default* value of the `rounding_method`
parameter of `Format.represent` (formats.py line 202). -/
inductive RMethod where
  | nearest_integer
  | floor
  | ceil
  | truncate
  | builtinRound
  deriving DecidableEq, Repr

/-- `hasattr(rounding_method, 'shift')`: the four policy classes define
`shift`; Python's builtin `round` does not. -/
def RMethod.hasShift : RMethod → Bool
  | .builtinRound => false
  | _ => true

/-- The scalar `shift` static methods.  `truncate.shift` on a scalar mantissa
raises `IndexError`: it builds `results = np.array([floor.shift(v, n),
ceil.shift(v, n)])`, a 1-D array of shape `(2,)`, and then evaluates
`results.shape[1]`, which is out of range (rounding.py lines 100-105).
`builtinRound` has no `shift` attribute; accessing it would raise
`AttributeError` (this branch is unreachable because callers test
`hasShift` first). -/
def RMethod.shiftFn : RMethod → ℤ → ℤ → Except PyErr ℤ
  | .floor, v, n => .ok (floorShift v n)
  | .ceil, v, n => .ok (ceilShift v n)
  | .nearest_integer, v, n => .ok (nearestShift v n)
  | .truncate, _, _ => .error .indexError
  | .builtinRound, _, _ => .error .attributeError

/-- The scalar `apply` static methods, as exact functions on `ℚ`.
Python's builtin `round` has no `apply` attribute, so `mpquantize` raises
`AttributeError` when handed it; this is modelled by `none`. -/
def RMethod.applyFn : RMethod → Option (ℚ → ℤ)
  | .nearest_integer => some roundHalfEven
  | .floor => some (fun q => ⌊q⌋)
  | .ceil => some (fun q => ⌈q⌉)
  | .truncate => some pytrunc
  | .builtinRound => none

/-- Reference rounding functions: the exact value each policy's mantissa
`shift` realizes on the value scale.  `nearest_integer.shift` adds the
parity bit, which realizes round-half-up, `⌊q + 1/2⌋`. -/
def specRound : RMethod → ℚ → ℤ
  | .nearest_integer, q => ⌊q + 1 / 2⌋
  | .floor, q => ⌊q⌋
  | .ceil, q => ⌈q⌉
  | .truncate, q => pytrunc q
  | .builtinRound, q => roundHalfEven q

/-- `truncate.error_bounds(output_lsb, input_lsb)` (rounding.py lines
108-113): build the interval `[-2^o, 2^o]`; when `input_lsb` is given, add
the "interval" `interval(2^i, -(2^i))` to it.  `interval` is an alias of the
`PyInterval` class, whose `__post_init__` rejects an upper bound below the
lower bound. -/
def truncate_error_bounds (output_lsb : ℤ) (input_lsb : Option ℤ) :
    Except PyErr (PyInterval ℚ) := do
  let bounds ← mkInterval (-(2 : ℚ) ^ output_lsb) ((2 : ℚ) ^ output_lsb)
  match input_lsb with
  | none => .ok bounds
  | some i => do
      let corr ← mkInterval ((2 : ℚ) ^ i) (-(2 : ℚ) ^ i)
      .ok (bounds.add corr)

/-! ## Overflow policies (`ltitop.arithmetic.modular`, `ltitop.arithmetic.saturated`) -/

/-- Python's `%` on exact real scalars: `x - m * ⌊x / m⌋` (result has the
sign of the divisor). -/
def pymodQ (x m : ℚ) : ℚ :=
  x - m * ⌊x / m⌋

/-- `wraparound(value, range_)` for an exact real scalar (modular.py lines
45-52): if the value is outside the range, reduce
`(value - lo) % (hi + 1 - lo) + lo` and flag overflow. -/
def wraparoundQ (value : ℚ) (range_ : PyInterval ℚ) : ℚ × Bool :=
  if value < range_.lower_bound ∨ range_.upper_bound < value then
    (pymodQ (value - range_.lower_bound)
        (range_.upper_bound + 1 - range_.lower_bound) + range_.lower_bound,
      true)
  else (value, false)

/-- `wraparound(value, range_)` for an integer scalar: Python's `%` on
integers with a positive divisor is Lean's `Int.emod`. -/
def wraparoundZ (value : ℤ) (range_ : PyInterval ℤ) : ℤ × Bool :=
  if value < range_.lower_bound ∨ range_.upper_bound < value then
    ((value - range_.lower_bound) %
        (range_.upper_bound + 1 - range_.lower_bound) + range_.lower_bound,
      true)
  else (value, false)

/-- `saturate(value, range_)` for an integer scalar (saturated.py lines
36-37): clamp to the range, flag overflow iff clamping occurred. -/
def saturateZ (value : ℤ) (range_ : PyInterval ℤ) : ℤ × Bool :=
  (min (max range_.lower_bound value) range_.upper_bound,
    decide (value < range_.lower_bound ∨ range_.upper_bound < value))

/-! ## Structured errors (`ltitop.arithmetic.errors`) -/

/-- `UnderflowError.margin` for a scalar offending value:
`np.min(np.absolute(value) / epsilon) = |value| / epsilon`. -/
def underflow_margin (value epsilon : ℚ) : ℚ :=
  |value| / epsilon

/-- `OverflowError.margin` for a scalar offending value `v`: the scalar is
first promoted to the degenerate interval `[v, v]`, then the margin is
`min((limits.hi - v) / w, (v - limits.lo) / w)` with `w` the width of the
legal limits. -/
def overflow_margin (value : ℚ) (limits : PyInterval ℚ) : ℚ :=
  min ((limits.upper_bound - value) / (limits.upper_bound - limits.lower_bound))
    ((value - limits.lower_bound) / (limits.upper_bound - limits.lower_bound))

/-! ## Formats (`ltitop.arithmetic.fixed_point.formats`) -/

/-- `Format(msb, lsb, signed)`: the bit-layout descriptor.  `__post_init__`
rejects `lsb > msb`; constructions are modelled through `mkFormat` below. -/
structure Format where
  msb : ℤ
  lsb : ℤ
  signed : Bool
  deriving DecidableEq, Repr

/-- Checked construction of a `Format`: `__post_init__` raises `ValueError`
when `lsb > msb` (formats.py lines 155-160). -/
def mkFormat (msb lsb : ℤ) (signed : Bool) : Except PyErr Format :=
  if msb < lsb then .error .valueError else .ok ⟨msb, lsb, signed⟩

/-- `Format.wordlength = msb - lsb + (1 if signed else 0)`. -/
def Format.wordlength (f : Format) : ℤ :=
  f.msb - f.lsb + (if f.signed then 1 else 0)

/-- `Format.mantissa_interval`: `[-2^(wl-1), 2^(wl-1)-1]` when signed,
`[0, 2^wl - 1]` when unsigned.  For every constructible format
(`lsb ≤ msb`) the exponents are the natural numbers `msb - lsb`
(signed: `wl - 1`) and `msb - lsb` (unsigned: `wl`). -/
def Format.mantissa_interval (f : Format) : PyInterval ℤ :=
  if f.signed then
    ⟨-(2 ^ (f.wordlength - 1).toNat), 2 ^ (f.wordlength - 1).toNat - 1⟩
  else ⟨0, 2 ^ f.wordlength.toNat - 1⟩

/-- `Format.value_epsilon = ldexp(1, lsb) = 2^lsb`. -/
def Format.value_epsilon (f : Format) : ℚ :=
  (2 : ℚ) ^ f.lsb

/-- `Format.value_interval`: `[-2^msb, 2^msb - 2^lsb]` when signed,
`[0, 2^msb - 2^lsb]` when unsigned. -/
def Format.value_interval (f : Format) : PyInterval ℚ :=
  if f.signed then ⟨-(2 : ℚ) ^ f.msb, (2 : ℚ) ^ f.msb - (2 : ℚ) ^ f.lsb⟩
  else ⟨0, (2 : ℚ) ^ f.msb - (2 : ℚ) ^ f.lsb⟩

/-- `Format.overflows_with(mantissa)`: the mantissa falls outside
`mantissa_interval`. -/
def Format.overflows_with (f : Format) (mantissa : ℤ) : Bool :=
  !(f.mantissa_interval.containsB mantissa)

/-! ### Printable notations

The regular expressions of `from_qnotation` / `from_pnotation` extract three
groups from the input string: an optional `s`/`u` prefix, and two signed
decimal integers.  We embed the string layer at the level of those groups
(decimal printing/parsing of integers round-trips and the two patterns are
mutually exclusive: Q strings contain a `Q` and no parentheses, parenthesis
strings the converse), as structured values. -/

/-- The optional one-letter prefix matched by `([su]?)`. -/
inductive SignTag where
  | sTag
  | uTag
  | noTag
  deriving DecidableEq, Repr

/-- `signed = (prefix != 'u')` (formats.py lines 54 and 70). -/
def SignTag.signed (t : SignTag) : Bool :=
  t != .uTag

/-- The groups of a string matching the Q-format regular expression
`^([su]?)Q([+-]?[0-9]+)\.([+-]?[0-9]+)$`. -/
structure QnText where
  tag : SignTag
  intPart : ℤ
  fracPart : ℤ
  deriving DecidableEq, Repr

/-- The groups of a string matching the parenthesis-format regular
expression `^([su]?)\(([+-]?[0-9]+),([+-]?[0-9]+)\)$`. -/
structure PnText where
  tag : SignTag
  msbPart : ℤ
  lsbPart : ℤ
  deriving DecidableEq, Repr

/-- A string in one of the two recognized shapes (the shapes are mutually
exclusive, so `from_notation`'s try-Q-then-P dispatch is a case split). -/
inductive NotedText where
  | qn : QnText → NotedText
  | pn : PnText → NotedText
  deriving DecidableEq, Repr

/-- `Format.from_qnotation`: `msb = int(group2) - (1 if signed else 0)`,
`lsb = -int(group3)` (formats.py lines 48-57). -/
def Format.from_qn (t : QnText) : Except PyErr Format :=
  mkFormat (t.intPart - (if t.tag.signed then 1 else 0)) (-t.fracPart) t.tag.signed

/-- `Format.from_pnotation`: `msb = int(group2)`, `lsb = int(group3)`
(formats.py lines 62-73). -/
def Format.from_pn (t : PnText) : Except PyErr Format :=
  mkFormat t.msbPart t.lsbPart t.tag.signed

/-- `Format.from_notation`: try the Q pattern, then the parenthesis pattern
(formats.py lines 75-85). -/
def Format.from_noted : NotedText → Except PyErr Format
  | .qn t => Format.from_qn t
  | .pn t => Format.from_pn t

/-- `Format.to_qnotation`: print `Q{msb + (1 if signed else 0)}.{-lsb}`,
prefixed with `u` when unsigned (formats.py lines 221-225). -/
def Format.to_qn (f : Format) : QnText :=
  ⟨if f.signed then .noTag else .uTag,
    f.msb + (if f.signed then 1 else 0), -f.lsb⟩

/-- `Format.to_pnotation`: print `({msb},{lsb})`, prefixed with `u` when
unsigned (formats.py lines 227-229). -/
def Format.to_pn (f : Format) : PnText :=
  ⟨if f.signed then .noTag else .uTag, f.msb, f.lsb⟩

/-! ## Representation (`ltitop.arithmetic.fixed_point.representation`) -/

/-- The `Representation(mantissa, format_)` class: the immutable
mantissa/format pair (scalar case).  Named `PyRepresentation` here because
Mathlib already owns the name `Representation`. -/
structure PyRepresentation where
  mantissa : ℤ
  format_ : Format
  deriving DecidableEq, Repr

/-- Checked construction of a `PyRepresentation`: `__post_init__` raises
`ValueError` when the mantissa lies outside the format's mantissa interval
(representation.py lines 103-108). -/
def mkRepr (mantissa : ℤ) (format_ : Format) : Except PyErr PyRepresentation :=
  if format_.mantissa_interval.containsB mantissa then .ok ⟨mantissa, format_⟩
  else .error .valueError

/-- `PyRepresentation.is_integer`: the format's LSB is at or above the unit
position. -/
def PyRepresentation.is_integer (r : PyRepresentation) : Bool :=
  decide (0 ≤ r.format_.lsb)

/-- `PyRepresentation.astype(float)` / `__mpfloat__`: the exact value
`mantissa * 2^lsb`. -/
def PyRepresentation.value (r : PyRepresentation) : ℚ :=
  (r.mantissa : ℚ) * (2 : ℚ) ^ r.format_.lsb

/-! ### `Format.represent` (formats.py lines 202-219) -/

/-- `Format.represent(rvalue, rounding_method)` on a plain (non-fixed-point)
scalar value: check the sign for unsigned formats, then quantize with
`mpquantize(value, nbits=-lsb, rounding_method)`, which evaluates
`rounding_method.apply(ldexp(value, -lsb))` — an `AttributeError` when the
method (such as the *default*, Python's builtin `round`) has no `apply`.
Returns `(mantissa, (underflow, overflow))`. -/
def Format.representVal (f : Format) (v : ℚ) (m : RMethod) :
    Except PyErr (ℤ × Bool × Bool) :=
  if !f.signed && decide (v < 0) then .error .valueError
  else
    match m.applyFn with
    | none => .error .attributeError
    | some g =>
        let mantissa := g (v * (2 : ℚ) ^ (-f.lsb))
        .ok (mantissa, decide (mantissa = 0 ∧ v ≠ 0), f.overflows_with mantissa)

/-- `Format.represent(rvalue, rounding_method)` on a `PyRepresentation`: when
the rounding method has a `shift` attribute the mantissa is re-quantized by
`rounding_method.shift(mantissa, n=rvalue.format_.lsb - self.lsb)` without
going through floating point; otherwise the value falls through to the
plain-scalar path. -/
def Format.representRepr (f : Format) (r : PyRepresentation) (m : RMethod) :
    Except PyErr (ℤ × Bool × Bool) :=
  if m.hasShift then
    if !f.signed && decide (r.mantissa < 0) then .error .valueError
    else
      match m.shiftFn r.mantissa (r.format_.lsb - f.lsb) with
      | .error e => .error e
      | .ok mantissa =>
          .ok (mantissa, decide (mantissa = 0 ∧ r.mantissa ≠ 0),
            f.overflows_with mantissa)
  else Format.representVal f r.value m

/-! ## Arithmetic logic units -/

/-- The two overflow-behavior callables a processing unit can be configured
with (`wraparound` from modular.py, `saturate` from saturated.py). -/
inductive OverflowBehavior where
  | wraparound
  | saturate
  deriving DecidableEq, Repr

/-- Dispatch `self.overflow_behavior(mantissa, range_=...)` for integer
mantissas. -/
def OverflowBehavior.run : OverflowBehavior → ℤ → PyInterval ℤ → ℤ × Bool
  | .wraparound, v, r => wraparoundZ v r
  | .saturate, v, r => saturateZ v r

/-- `FixedFormatArithmeticLogicUnit`: one fixed operand/result format, a
rounding method, an overflow behavior, and the per-operation permission
flags (the constructor's `allows_overflow` / `allows_underflow` booleans
apply uniformly to the operations modelled here). -/
structure FixedFormatALU where
  format_ : Format
  rounding_method : RMethod
  overflow_behavior : OverflowBehavior
  allows_overflow : Bool
  allows_underflow : Bool
  deriving DecidableEq, Repr

/-- `FixedFormatArithmeticLogicUnit.multiply(x, y)` (lines 122-150): check
operand formats, form the exact mantissa product in the doubled-width
intermediate format `(2*msb + 1, 2*lsb)`, re-quantize it to the unit's
format with the configured rounding method, raise `UnderflowError` /
`OverflowError` per the permission flags, and otherwise apply the overflow
behavior when the quantized mantissa is out of range. -/
def FixedFormatALU.multiply (alu : FixedFormatALU) (x y : PyRepresentation) :
    Except PyErr PyRepresentation :=
  if x.format_ ≠ alu.format_ ∨ y.format_ ≠ alu.format_ then .error .valueError
  else
    match mkFormat (alu.format_.msb * 2 + 1) (alu.format_.lsb * 2) alu.format_.signed with
    | .error e => .error e
    | .ok zfmt =>
      match mkRepr (x.mantissa * y.mantissa) zfmt with
      | .error e => .error e
      | .ok z =>
        match Format.representRepr alu.format_ z alu.rounding_method with
        | .error e => .error e
        | .ok (mantissa, underflow, overflow) =>
          if underflow && !alu.allows_underflow then .error .underflowError
          else if overflow then
            if !alu.allows_overflow then .error .overflowError
            else
              mkRepr (alu.overflow_behavior.run mantissa
                alu.format_.mantissa_interval).1 alu.format_
          else mkRepr mantissa alu.format_

/-- `FixedFormatArithmeticLogicUnit.truncate(x)` (lines 152-168): a no-op on
integer-valued representations; otherwise the body evaluates
`truncate(mpfloat(x))`, but the name `truncate` is not defined in
fixed_format_arithmetic_logic_unit.py (the module imports only
`nearest_integer` from ltitop.arithmetic.rounding), so the call raises
`NameError` before anything else happens.  (Had it got further, the final
`type(x)(mantissa, format_)` would also raise `NameError`: the local is
`self.format_`.) -/
def FixedFormatALU.truncate (alu : FixedFormatALU) (x : PyRepresentation) :
    Except PyErr PyRepresentation :=
  if x.format_ ≠ alu.format_ then .error .valueError
  else if x.is_integer then .ok x
  else .error .nameError

/-- `FixedFormatArithmeticLogicUnit.floor(x)` (lines 170-186): same shape as
`truncate`; the name `floor` is likewise not defined in the module, so the
non-integer branch raises `NameError`. -/
def FixedFormatALU.floorOp (alu : FixedFormatALU) (x : PyRepresentation) :
    Except PyErr PyRepresentation :=
  if x.format_ ≠ alu.format_ then .error .valueError
  else if x.is_integer then .ok x
  else .error .nameError

/-- `FixedFormatArithmeticLogicUnit.ceil(x)` (lines 188-204): same shape as
`truncate`; the name `ceil` is likewise not defined in the module, so the
non-integer branch raises `NameError`. -/
def FixedFormatALU.ceilOp (alu : FixedFormatALU) (x : PyRepresentation) :
    Except PyErr PyRepresentation :=
  if x.format_ ≠ alu.format_ then .error .valueError
  else if x.is_integer then .ok x
  else .error .nameError

/-- `FixedFormatArithmeticLogicUnit.nearest(x)` (lines 206-222): a no-op on
integer-valued representations; otherwise it evaluates
`nearest_integer(mpfloat(x))` — `nearest_integer` *is* imported, but it is
a plain class with only static methods, so calling it with an argument
raises `TypeError` (`nearest_integer() takes no arguments`). -/
def FixedFormatALU.nearest (alu : FixedFormatALU) (x : PyRepresentation) :
    Except PyErr PyRepresentation :=
  if x.format_ ≠ alu.format_ then .error .valueError
  else if x.is_integer then .ok x
  else .error .typeError

/-- `MultiFormatArithmeticLogicUnit`: one maximum wordlength plus the shared
processing-unit configuration. -/
structure MultiFormatALU where
  wordlength : ℤ
  rounding_method : RMethod
  overflow_behavior : OverflowBehavior
  allows_overflow : Bool
  allows_underflow : Bool
  deriving DecidableEq, Repr

/-- `MultiFormatArithmeticLogicUnit._find_common_format` (lines 92-102):
`msb = max(msbs)`, `lsb = min(lsbs)`, raising `lsb` when the combined
wordlength exceeds the unit's maximum. -/
def MultiFormatALU.find_common_format (alu : MultiFormatALU) (fx fy : Format) :
    Except PyErr Format :=
  if fx = fy then .ok fx
  else if fx.signed ≠ fy.signed then .error .assertionError
  else
    let signed := fx.signed
    let msb := max fx.msb fy.msb
    let lsb := min fx.lsb fy.lsb
    let wl := msb - lsb + (if signed then 1 else 0)
    let lsb' := if alu.wordlength < wl
      then msb - alu.wordlength + (if signed then 1 else 0) else lsb
    mkFormat msb lsb' signed

/-- `MultiFormatArithmeticLogicUnit._align_operand_mantissa` (lines
104-113): re-quantize an operand into the common format, propagating
`UnderflowError` when disallowed and asserting no overflow.  Returns the
single aligned mantissa. -/
def MultiFormatALU.align_operand_mantissa (alu : MultiFormatALU)
    (value : PyRepresentation) (format_ : Format) (allows_underflow : Bool) :
    Except PyErr ℤ :=
  if value.format_ = format_ then .ok value.mantissa
  else
    match Format.representRepr format_ value alu.rounding_method with
    | .error e => .error e
    | .ok (mantissa, underflow, overflow) =>
      if underflow && !allows_underflow then .error .underflowError
      else if overflow then .error .assertionError
      else .ok mantissa

/-- `MultiFormatArithmeticLogicUnit.substract(x, y)` (lines 147-161): after
the operand checks and the common-format computation, the code binds
`mantissa_x, underflow = self._align_operand_mantissa(...)` — but
`_align_operand_mantissa` returns a single scalar mantissa, so the tuple
unpacking raises `TypeError` (`cannot unpack non-iterable int object`) as
soon as the first alignment returns. -/
def MultiFormatALU.substract (alu : MultiFormatALU) (x y : PyRepresentation) :
    Except PyErr PyRepresentation :=
  if alu.wordlength < x.format_.wordlength ∨ alu.wordlength < y.format_.wordlength
    then .error .valueError
  else if x.format_.signed ≠ y.format_.signed then .error .valueError
  else
    match alu.find_common_format x.format_ y.format_ with
    | .error e => .error e
    | .ok format_z =>
      match alu.align_operand_mantissa x format_z alu.allows_underflow with
      | .error e => .error e
      | .ok _ => .error .typeError

/-! ## Active processing unit (`ltitop.arithmetic.fixed_point.processing_unit`) -/

/-- A `ProcessingUnit` instance, identified by a tag (its configuration is
irrelevant to the active-unit discipline). -/
structure ProcessingUnit where
  uid : ℕ
  deriving DecidableEq, Repr

/-- The process-wide `ProcessingUnit.__active` slot. -/
abbrev ActiveSlot := Option ProcessingUnit

/-- `ProcessingUnit.active()` (lines 37-41): raise `RuntimeError` when no
unit is active. -/
def ProcessingUnit.active (slot : ActiveSlot) : Except PyErr ProcessingUnit :=
  match slot with
  | none => .error .runtimeError
  | some u => .ok u

/-- The state after `ProcessingUnit.__enter__`: the global slot plus the
entered unit's saved `__last_active`. -/
structure EnteredScope where
  slot : ActiveSlot
  last_active : ActiveSlot
  deriving DecidableEq, Repr

/-- `ProcessingUnit.__enter__` (lines 43-46): save the current global slot
in `self.__last_active` and install `self` as the active unit. -/
def ProcessingUnit.enter (u : ProcessingUnit) (slot : ActiveSlot) : EnteredScope :=
  ⟨some u, slot⟩

/-- `ProcessingUnit.__exit__` (lines 48-49): restore the saved slot. -/
def ProcessingUnit.exitScope (s : EnteredScope) : ActiveSlot :=
  s.last_active

/-! ## Arithmetic lemmas about the shift operations -/

/-- Python's arithmetic right shift on integers is the floor of exact
division by the corresponding power of two. -/
theorem int_shr_eq_floor (v : ℤ) (k : ℕ) :
    v / (2 : ℤ) ^ k = ⌊(v : ℚ) / (2 : ℚ) ^ k⌋ := by
  have h := Rat.floor_intCast_div_natCast v (2 ^ k)
  push_cast at h
  exact h.symm

/-- `floor.shift` realizes the floor of the exact scaled value. -/
theorem floorShift_eq (v n : ℤ) : floorShift v n = ⌊(v : ℚ) * (2 : ℚ) ^ n⌋ := by
  rcases lt_trichotomy n 0 with hn | rfl | hn
  · obtain ⟨k, rfl⟩ : ∃ k : ℕ, n = -((k : ℤ) + 1) := ⟨(-n - 1).toNat, by omega⟩
    have ht : (-(-((k : ℤ) + 1))).toNat = k + 1 := by omega
    have hz : (2 : ℚ) ^ (-((k : ℤ) + 1)) = ((2 : ℚ) ^ (k + 1))⁻¹ := by
      rw [← zpow_natCast (2 : ℚ) (k + 1), ← zpow_neg]
      norm_num
    rw [floorShift, if_neg (by omega), if_pos (by omega), ht, hz,
      ← div_eq_mul_inv, int_shr_eq_floor]
  · simp [floorShift]
  · obtain ⟨k, rfl⟩ : ∃ k : ℕ, n = (k : ℤ) := ⟨n.toNat, by omega⟩
    have hz : (2 : ℚ) ^ ((k : ℤ)) = ((2 ^ k : ℤ) : ℚ) := by
      rw [zpow_natCast]; push_cast; ring
    rw [floorShift, if_pos hn, hz, Int.toNat_natCast, ← Int.cast_mul,
      Int.floor_intCast]

/-- `ceil.shift` realizes the ceiling of the exact scaled value. -/
theorem ceilShift_eq (v n : ℤ) : ceilShift v n = ⌈(v : ℚ) * (2 : ℚ) ^ n⌉ := by
  rw [ceilShift, floorShift_eq]
  have h : ((-v : ℤ) : ℚ) * (2 : ℚ) ^ n = -((v : ℚ) * (2 : ℚ) ^ n) := by
    push_cast; ring
  rw [h, Int.floor_neg, neg_neg]

/-- The parity-bit correction of `nearest_integer.shift`, at the integer
level: adding the bit below the cut to the floor-shifted value equals
floor-shifting after adding half of the removed weight. -/
theorem nearest_bit_identity (v : ℤ) (k : ℕ) :
    v / 2 ^ (k + 1) + (v / 2 ^ k) % 2 = (v + 2 ^ k) / 2 ^ (k + 1) := by
  have h2k : (0 : ℤ) < 2 ^ k := by positivity
  have h2k1 : (0 : ℤ) < 2 ^ (k + 1) := by positivity
  have hne1 : (2 : ℤ) ^ (k + 1) ≠ 0 := ne_of_gt h2k1
  have hne : (2 : ℤ) ^ k ≠ 0 := ne_of_gt h2k
  have hpow : (2 : ℤ) ^ (k + 1) = 2 ^ k * 2 := by ring
  obtain ⟨s, a, hs0, hs1, rfl⟩ :
      ∃ s a : ℤ, 0 ≤ s ∧ s < 2 ^ k ∧ v = s + a * 2 ^ k := by
    refine ⟨v % 2 ^ k, v / 2 ^ k, Int.emod_nonneg v hne,
      Int.emod_lt_of_pos v h2k, ?_⟩
    have h := Int.emod_add_ediv v (2 ^ k)
    linarith
  have hdiv_k : (s + a * 2 ^ k) / 2 ^ k = a := by
    rw [Int.add_mul_ediv_right _ _ hne, Int.ediv_eq_zero_of_lt hs0 hs1, zero_add]
  obtain ⟨t, ht⟩ | ⟨t, ht⟩ := Int.even_or_odd a
  · have hL : (s + a * 2 ^ k) / 2 ^ (k + 1) = t := by
      have he : s + a * 2 ^ k = s + t * 2 ^ (k + 1) := by rw [ht, hpow]; ring
      rw [he, Int.add_mul_ediv_right _ _ hne1,
        Int.ediv_eq_zero_of_lt hs0 (by omega), zero_add]
    have hR : (s + a * 2 ^ k + 2 ^ k) / 2 ^ (k + 1) = t := by
      have he : s + a * 2 ^ k + 2 ^ k = (s + 2 ^ k) + t * 2 ^ (k + 1) := by
        rw [ht, hpow]; ring
      rw [he, Int.add_mul_ediv_right _ _ hne1,
        Int.ediv_eq_zero_of_lt (by omega) (by omega), zero_add]
    rw [hL, hR, hdiv_k]
    omega
  · have hL : (s + a * 2 ^ k) / 2 ^ (k + 1) = t := by
      have he : s + a * 2 ^ k = (s + 2 ^ k) + t * 2 ^ (k + 1) := by
        rw [ht, hpow]; ring
      rw [he, Int.add_mul_ediv_right _ _ hne1,
        Int.ediv_eq_zero_of_lt (by omega) (by omega), zero_add]
    have hR : (s + a * 2 ^ k + 2 ^ k) / 2 ^ (k + 1) = t + 1 := by
      have he : s + a * 2 ^ k + 2 ^ k = s + (t + 1) * 2 ^ (k + 1) := by
        rw [ht, hpow]; ring
      rw [he, Int.add_mul_ediv_right _ _ hne1,
        Int.ediv_eq_zero_of_lt hs0 (by omega), zero_add]
    rw [hL, hR, hdiv_k]
    omega

/-- `nearest_integer.shift` realizes round-half-up of the exact scaled
value. -/
theorem nearestShift_eq (v n : ℤ) :
    nearestShift v n = ⌊(v : ℚ) * (2 : ℚ) ^ n + 1 / 2⌋ := by
  rcases lt_trichotomy n 0 with hn | rfl | hn
  · obtain ⟨k, rfl⟩ : ∃ k : ℕ, n = -((k : ℤ) + 1) := ⟨(-n - 1).toNat, by omega⟩
    have ht1 : (-(-((k : ℤ) + 1)) - 1).toNat = k := by omega
    have ht2 : (-(-((k : ℤ) + 1))).toNat = k + 1 := by omega
    have hz : (2 : ℚ) ^ (-((k : ℤ) + 1)) = ((2 : ℚ) ^ (k + 1))⁻¹ := by
      rw [← zpow_natCast (2 : ℚ) (k + 1), ← zpow_neg]
      norm_num
    have hq : (v : ℚ) * (2 : ℚ) ^ (-((k : ℤ) + 1)) + 1 / 2
        = ((v + 2 ^ k : ℤ) : ℚ) / (2 : ℚ) ^ (k + 1) := by
      rw [hz]
      have hpos : (0 : ℚ) < (2 : ℚ) ^ (k + 1) := by positivity
      field_simp
      ring
    rw [nearestShift, floorShift, hq, ← int_shr_eq_floor]
    simp only [if_neg (show ¬ (0 : ℤ) < -((k : ℤ) + 1) by omega),
      if_pos (show (-((k : ℤ) + 1)) < 0 by omega), ht1, ht2]
    exact nearest_bit_identity v k
  · rw [nearestShift]
    simp only [lt_self_iff_false, if_false, floorShift]
    norm_num
  · obtain ⟨k, rfl⟩ : ∃ k : ℕ, n = (k : ℤ) := ⟨n.toNat, by omega⟩
    have hint : (v : ℚ) * (2 : ℚ) ^ ((k : ℤ)) = ((v * 2 ^ k : ℤ) : ℚ) := by
      rw [zpow_natCast]; push_cast; ring
    rw [nearestShift, if_neg (by omega), floorShift, if_pos hn, hint,
      Int.toNat_natCast, Int.floor_int_add]
    norm_num

/-- Whenever a rounding policy's scalar `shift` returns, the result is the
policy's reference rounding of the exact scaled value. -/
theorem shiftFn_eq_specRound (m : RMethod) (v n r : ℤ)
    (h : m.shiftFn v n = .ok r) :
    r = specRound m ((v : ℚ) * (2 : ℚ) ^ n) := by
  cases m with
  | floor =>
      simp only [RMethod.shiftFn, Except.ok.injEq] at h
      rw [← h, specRound, floorShift_eq]
  | ceil =>
      simp only [RMethod.shiftFn, Except.ok.injEq] at h
      rw [← h, specRound, ceilShift_eq]
  | nearest_integer =>
      simp only [RMethod.shiftFn, Except.ok.injEq] at h
      rw [← h, specRound, nearestShift_eq]
  | truncate => simp [RMethod.shiftFn] at h
  | builtinRound => simp [RMethod.shiftFn] at h

/-! ## Claim theorems -/

/-- C6: entering a `ProcessingUnit` as a scoped resource makes it the
process-wide active unit and saves the previously active one; exiting
restores the previously active unit (LIFO nesting: after exiting an inner
scope the outer unit is active again, and exiting the outer scope restores
the original slot); and `ProcessingUnit.active()` with no unit entered
raises `RuntimeError`. -/
theorem processing_unit_scope_discipline :
    (∀ (u : ProcessingUnit) (s : ActiveSlot),
      ProcessingUnit.active (u.enter s).slot = .ok u ∧
      ProcessingUnit.exitScope (u.enter s) = s) ∧
    (∀ (u₁ u₂ : ProcessingUnit) (s : ActiveSlot),
      ProcessingUnit.active
        (ProcessingUnit.exitScope (u₂.enter (u₁.enter s).slot)) = .ok u₁ ∧
      ProcessingUnit.exitScope (u₁.enter s) = s) ∧
    ProcessingUnit.active none = .error .runtimeError := by
  refine ⟨fun u s => ⟨rfl, rfl⟩, fun u₁ u₂ s => ⟨rfl, rfl⟩, rfl⟩

/-- C7: the printed Q and parenthesis notations of every (constructible)
`Format` parse back to an equal `Format`, both through the dedicated
parsers and through `from_notation`'s try-both dispatch, for signed and
unsigned formats alike. -/
theorem format_notation_roundtrip (f : Format) (h : f.lsb ≤ f.msb) :
    Format.from_qn (Format.to_qn f) = .ok f ∧
    Format.from_pn (Format.to_pn f) = .ok f ∧
    Format.from_noted (.qn (Format.to_qn f)) = .ok f ∧
    Format.from_noted (.pn (Format.to_pn f)) = .ok f := by
  obtain ⟨msb, lsb, signed⟩ := f
  have h' : lsb ≤ msb := h
  simp only [Format.from_noted]
  have hq : Format.from_qn (Format.to_qn ⟨msb, lsb, signed⟩) = .ok ⟨msb, lsb, signed⟩ := by
    cases signed <;>
      simp [Format.from_qn, Format.to_qn, SignTag.signed, mkFormat,
        show (SignTag.noTag != SignTag.uTag) = true from rfl] <;> omega
  have hp : Format.from_pn (Format.to_pn ⟨msb, lsb, signed⟩) = .ok ⟨msb, lsb, signed⟩ := by
    cases signed <;>
      simp [Format.from_pn, Format.to_pn, SignTag.signed, mkFormat,
        show (SignTag.noTag != SignTag.uTag) = true from rfl] <;> omega
  exact ⟨hq, hp, hq, hp⟩

/-- C7 witness: the round trip at the concrete unsigned format
`u(3,-4)`. -/
theorem format_notation_roundtrip_witness :
    Format.from_qn (Format.to_qn ⟨3, -4, false⟩) = .ok ⟨3, -4, false⟩ ∧
    Format.from_pn (Format.to_pn ⟨3, -4, false⟩) = .ok ⟨3, -4, false⟩ ∧
    Format.from_noted (.qn (Format.to_qn ⟨3, -4, false⟩)) = .ok ⟨3, -4, false⟩ ∧
    Format.from_noted (.pn (Format.to_pn ⟨3, -4, false⟩)) = .ok ⟨3, -4, false⟩ :=
  format_notation_roundtrip ⟨3, -4, false⟩ (by decide)

/-- C8 (amended): for *integer* scalars and ranges, `wraparound` returns a
value in the range — the value itself when already inside, the modular
reduction `(v - lo) % (hi + 1 - lo) + lo` otherwise — and flags overflow
exactly when the input was outside.  (For fractional scalar inputs the
reduced value can exceed the upper bound; see the counterexample.) -/
theorem wraparound_int_contract (v lo hi : ℤ) (h : lo ≤ hi) :
    (lo ≤ (wraparoundZ v ⟨lo, hi⟩).1 ∧ (wraparoundZ v ⟨lo, hi⟩).1 ≤ hi) ∧
    ((lo ≤ v ∧ v ≤ hi) → wraparoundZ v ⟨lo, hi⟩ = (v, false)) ∧
    ((v < lo ∨ hi < v) →
      wraparoundZ v ⟨lo, hi⟩ = ((v - lo) % (hi + 1 - lo) + lo, true)) ∧
    ((wraparoundZ v ⟨lo, hi⟩).2 = true ↔ (v < lo ∨ hi < v)) := by
  have hmpos : (0 : ℤ) < hi + 1 - lo := by omega
  have he0 : 0 ≤ (v - lo) % (hi + 1 - lo) := Int.emod_nonneg _ (by omega)
  have he1 : (v - lo) % (hi + 1 - lo) < hi + 1 - lo := Int.emod_lt_of_pos _ hmpos
  simp only [wraparoundZ]
  split_ifs with hc
  · refine ⟨⟨by omega, by omega⟩, fun hin => absurd hc (by omega), fun hout => rfl, ?_⟩
    simp only [true_iff]
    omega
  · push_neg at hc
    refine ⟨⟨hc.1, hc.2⟩, fun hin => rfl, fun hout => absurd hout (by omega), ?_⟩
    simp only [Bool.false_eq_true, false_iff]
    omega

/-- C8 witness: the integer contract applied at `v = -3`, range `[0, 10]`
(wraps to `8`). -/
theorem wraparound_int_contract_witness :
    ((0 ≤ (wraparoundZ (-3) ⟨0, 10⟩).1 ∧ (wraparoundZ (-3) ⟨0, 10⟩).1 ≤ 10) ∧
    ((0 ≤ (-3 : ℤ) ∧ (-3 : ℤ) ≤ 10) → wraparoundZ (-3) ⟨0, 10⟩ = (-3, false)) ∧
    (((-3 : ℤ) < 0 ∨ (10 : ℤ) < -3) →
      wraparoundZ (-3) ⟨0, 10⟩ = (((-3) - 0) % (10 + 1 - 0) + 0, true)) ∧
    ((wraparoundZ (-3) ⟨0, 10⟩).2 = true ↔ ((-3 : ℤ) < 0 ∨ (10 : ℤ) < -3))) :=
  wraparound_int_contract (-3) 0 10 (by decide)

/-- C8 counterexample: on the fractional scalar `-1/2` with range
`[0, 10]`, `wraparound` returns `21/2`, which does *not* lie in the range,
so the claim "always returns a value in `r`" fails as stated for general
scalar values. -/
theorem wraparound_fractional_escapes_range :
    wraparoundQ (-1 / 2) ⟨0, 10⟩ = (21 / 2, true) ∧ ¬ ((21 : ℚ) / 2 ≤ 10) := by
  constructor
  · rw [wraparoundQ]
    rw [if_pos (by norm_num)]
    have hfl : ⌊((-1 / 2 : ℚ) - 0) / (10 + 1 - 0)⌋ = -1 := by
      rw [Int.floor_eq_iff]
      norm_num
    simp only [pymodQ, hfl]
    norm_num
  · norm_num

/-- C9 counterexample: `UnderflowError.margin` is *not* a log-ratio.  At the
concrete offending value `1` with `epsilon = 1` the code's margin is the
plain ratio `|1|/1 = 1`, whereas a log-ratio of value to epsilon is
`log_b(1/1) = 0` for every base `b` — and `1 ≠ 0`. -/
theorem underflow_margin_not_log_ratio :
    underflow_margin 1 1 = 1 ∧ (∀ b : ℝ, Real.logb b ((1 : ℝ) / 1) = 0) ∧
    (1 : ℚ) ≠ 0 := by
  refine ⟨by norm_num [underflow_margin], fun b => by norm_num, one_ne_zero⟩

/-- C9 (amended): both margins are continuous *linear-ratio* (not
log-ratio) measures of infeasibility: `UnderflowError.margin` is
`|value| / epsilon`, monotone in the offending magnitude, and
`OverflowError.margin` is the least slack to the legal limits normalized by
their width — negative and decreasing as the value moves farther above the
upper limit, so nearly-feasible failures rank above grossly infeasible
ones. -/
theorem margin_ranks_infeasibility
    (v₁ v₂ ε lo hi w₁ w₂ : ℚ) (hε : 0 < ε) (h12 : |v₁| ≤ |v₂|)
    (hlohi : lo < hi) (h1 : hi < w₁) (h2 : w₁ ≤ w₂) :
    underflow_margin v₂ ε = |v₂| / ε ∧
    underflow_margin v₁ ε ≤ underflow_margin v₂ ε ∧
    overflow_margin w₁ ⟨lo, hi⟩ = (hi - w₁) / (hi - lo) ∧
    overflow_margin w₁ ⟨lo, hi⟩ < 0 ∧
    overflow_margin w₂ ⟨lo, hi⟩ ≤ overflow_margin w₁ ⟨lo, hi⟩ := by
  have hw : (0 : ℚ) < hi - lo := by linarith
  have hm : ∀ w : ℚ, hi < w → overflow_margin w ⟨lo, hi⟩ = (hi - w) / (hi - lo) := by
    intro w hwgt
    simp only [overflow_margin]
    exact min_eq_left (div_le_div_of_nonneg_right (by linarith) hw.le)
  refine ⟨rfl, ?_, hm w₁ h1, ?_, ?_⟩
  · exact div_le_div_of_nonneg_right h12 hε.le
  · rw [hm w₁ h1]
    exact div_neg_of_neg_of_pos (by linarith) hw
  · rw [hm w₁ h1, hm w₂ (by linarith)]
    exact div_le_div_of_nonneg_right (by linarith) hw.le

/-- C9 witness: the amended margin facts at `v₁ = 1/4`, `v₂ = 1/2`,
`ε = 1`, limits `[0, 1]`, offending values `2 ≤ 3`. -/
theorem margin_ranks_infeasibility_witness :
    underflow_margin (1 / 2) 1 = |(1 : ℚ) / 2| / 1 ∧
    underflow_margin (1 / 4) 1 ≤ underflow_margin (1 / 2) 1 ∧
    overflow_margin 2 ⟨0, 1⟩ = ((1 : ℚ) - 2) / (1 - 0) ∧
    overflow_margin 2 ⟨0, 1⟩ < 0 ∧
    overflow_margin 3 ⟨0, 1⟩ ≤ overflow_margin 2 ⟨0, 1⟩ :=
  margin_ranks_infeasibility (1 / 4) (1 / 2) 1 0 1 2 3
    (by norm_num) (by rw [abs_of_pos, abs_of_pos] <;> norm_num)
    (by norm_num) (by norm_num) (by norm_num)

/-- C10: `bool(Interval(x))` is false for every degenerate interval — the
truthiness of an interval holds exactly when its bounds differ, so the
degenerate interval at the nonzero point `5` converts to `False`. -/
theorem interval_bool_degenerate :
    (∀ x : ℚ, mkIntervalScalar x = .ok ⟨x, x⟩) ∧
    (∀ x : ℚ, PyInterval.nonzero ⟨x, x⟩ = false) ∧
    (∀ i : PyInterval ℚ, PyInterval.nonzero i = true ↔
      i.lower_bound ≠ i.upper_bound) ∧
    PyInterval.nonzero ⟨(5 : ℚ), 5⟩ = false ∧ (5 : ℚ) ≠ 0 := by
  refine ⟨fun x => by simp [mkIntervalScalar, mkInterval],
    fun x => by simp [PyInterval.nonzero],
    fun i => by simp [PyInterval.nonzero],
    by simp [PyInterval.nonzero], by norm_num⟩

/-- C5: `truncate.error_bounds(o)` does return the interval `[-2^o, 2^o]`,
but `truncate.error_bounds(o, i)` never returns the tightened bounds: for
*every* `i` the construction of the correction term `interval(2^i, -(2^i))`
raises `ValueError`, because `2^i > 0 > -(2^i)` violates the `Interval`
bound invariant.  The concrete conjunct evaluates the failing input
`o = 0`, `i = -2`. -/
theorem truncate_error_bounds_eval :
    (∀ o : ℤ, truncate_error_bounds o none =
      .ok ⟨-(2 : ℚ) ^ o, (2 : ℚ) ^ o⟩) ∧
    (∀ o i : ℤ, truncate_error_bounds o (some i) = .error .valueError) ∧
    truncate_error_bounds 0 (some (-2)) = .error .valueError := by
  have hb : ∀ o : ℤ, mkInterval (-(2 : ℚ) ^ o) ((2 : ℚ) ^ o)
      = .ok ⟨-(2 : ℚ) ^ o, (2 : ℚ) ^ o⟩ := by
    intro o
    rw [mkInterval, if_neg]
    push_neg
    have : (0 : ℚ) < (2 : ℚ) ^ o := by positivity
    linarith
  have hc : ∀ i : ℤ, mkInterval ((2 : ℚ) ^ i) (-(2 : ℚ) ^ i)
      = (.error .valueError : Except PyErr (PyInterval ℚ)) := by
    intro i
    rw [mkInterval, if_pos]
    have : (0 : ℚ) < (2 : ℚ) ^ i := by positivity
    linarith
  have h1 : ∀ o : ℤ, truncate_error_bounds o none =
      .ok ⟨-(2 : ℚ) ^ o, (2 : ℚ) ^ o⟩ := by
    intro o
    rw [truncate_error_bounds, hb o]
    rfl
  have h2 : ∀ o i : ℤ, truncate_error_bounds o (some i) = .error .valueError := by
    intro o i
    rw [truncate_error_bounds, hb o]
    show (mkInterval ((2 : ℚ) ^ i) (-(2 : ℚ) ^ i)).bind _ = _
    rw [hc i]
    rfl
  exact ⟨h1, h2, h2 0 (-2)⟩

/-- Round-half-even lands within one unit of its argument. -/
theorem roundHalfEven_near (q : ℚ) : |(roundHalfEven q : ℚ) - q| ≤ 1 := by
  have h0 : (⌊q⌋ : ℚ) ≤ q := Int.floor_le q
  have h1 : q < ⌊q⌋ + 1 := Int.lt_floor_add_one q
  rw [roundHalfEven]
  split_ifs <;> push_cast <;> rw [abs_le] <;> constructor <;> linarith

/-- C2: the claimed quantization-error bound cannot be exercised through
`Format.represent`'s *default* rounding method: that default is Python's
builtin `round`, which has no `apply` attribute, so `mpquantize` raises
`AttributeError` on every plain value (first conjunct, at the test suite's
own input `Format(7, 0, True).represent(0)`).  With a working nearest
rounding method, every successful quantization does satisfy
`|mantissa * 2^lsb - v| ≤ value_epsilon` (second conjunct). -/
theorem represent_quantization_error :
    Format.representVal ⟨7, 0, true⟩ 0 .builtinRound = .error .attributeError ∧
    (∀ (f : Format) (v : ℚ) (m : ℤ) (u o : Bool),
      Format.representVal f v .nearest_integer = .ok (m, u, o) →
      |(m : ℚ) * (2 : ℚ) ^ f.lsb - v| ≤ f.value_epsilon) := by
  constructor
  · rfl
  · intro f v m u o hok
    rw [Format.representVal] at hok
    split_ifs at hok
    simp only [RMethod.applyFn, Except.ok.injEq, Prod.mk.injEq] at hok
    obtain ⟨hm, -, -⟩ := hok
    have hs : (0 : ℚ) < (2 : ℚ) ^ f.lsb := by positivity
    have hinv : (2 : ℚ) ^ (-f.lsb) = ((2 : ℚ) ^ f.lsb)⁻¹ := by
      rw [zpow_neg]
    have hq : (m : ℚ) * (2 : ℚ) ^ f.lsb - v
        = ((m : ℚ) - v * (2 : ℚ) ^ (-f.lsb)) * (2 : ℚ) ^ f.lsb := by
      rw [hinv]
      field_simp
    rw [Format.value_epsilon, hq, abs_mul, abs_of_pos hs]
    calc |(m : ℚ) - v * (2 : ℚ) ^ (-f.lsb)| * (2 : ℚ) ^ f.lsb
        ≤ 1 * (2 : ℚ) ^ f.lsb := by
          apply mul_le_mul_of_nonneg_right ?_ hs.le
          rw [← hm]
          exact roundHalfEven_near (v * (2 : ℚ) ^ (-f.lsb))
      _ = (2 : ℚ) ^ f.lsb := one_mul _

/-- C2 witness: with nearest rounding, representing `3` in the integer
format `Q8.0` (msb 7, lsb 0) gives mantissa 3 and the bound holds there. -/
theorem represent_quantization_error_witness :
    |((3 : ℤ) : ℚ) * (2 : ℚ) ^ (Format.lsb ⟨7, 0, true⟩)
      - 3| ≤ Format.value_epsilon ⟨7, 0, true⟩ := by
  refine represent_quantization_error.2 ⟨7, 0, true⟩ 3 3 false false ?_
  rw [Format.representVal]
  norm_num [RMethod.applyFn, roundHalfEven, Format.overflows_with,
    PyInterval.containsB, Format.mantissa_interval, Format.wordlength]
  constructor <;> decide

/-! ### Concrete fixtures used by the ALU claims -/

/-- The `Q(7)` format: msb 0, lsb -7, signed. -/
def q7fmt : Format := ⟨0, -7, true⟩

/-- The `Q(4, 4)` format: msb 3, lsb -4, signed. -/
def q44fmt : Format := ⟨3, -4, true⟩

/-- A fixed-format ALU over `Q(7)` with nearest rounding, wraparound
overflow behavior, overflow and underflow allowed. -/
def ffalu7 : FixedFormatALU := ⟨q7fmt, .nearest_integer, .wraparound, true, true⟩

/-- A fixed-format ALU over the integer format `Q8.0` (msb 7, lsb 0). -/
def ffaluInt : FixedFormatALU := ⟨⟨7, 0, true⟩, .nearest_integer, .wraparound, true, true⟩

/-- An 8-bit multi-format ALU with the `ProcessingUnit` defaults (floor
rounding, wraparound) and strict overflow/underflow. -/
def malu8 : MultiFormatALU := ⟨8, .floor, .wraparound, false, false⟩

/-- C3: `MultiFormatArithmeticLogicUnit.substract` crashes on every pair of
scalar operands: at `x = Representation(32, Q(4,4))`,
`y = Representation(16, Q(4,4))` (both formats fit the 8-bit unit and share
signedness, and the alignment of `x` into the common format succeeds,
returning the bare mantissa 32 — second conjunct), the statement
`mantissa_x, underflow = self._align_operand_mantissa(...)` unpacks that
single integer and raises `TypeError` instead of returning the difference
representation. -/
theorem multi_substract_unpack_crash :
    MultiFormatALU.substract malu8 ⟨32, q44fmt⟩ ⟨16, q44fmt⟩ = .error .typeError ∧
    MultiFormatALU.align_operand_mantissa malu8 ⟨32, q44fmt⟩ q44fmt false = .ok 32 := by
  constructor <;> decide

/-- C4: the fixed-format unary rounding operations are a no-op on
integer-valued representations (last conjunct, format `Q8.0`), but on any
non-integer-valued representation they crash instead of rounding:
`truncate`/`floor`/`ceil` raise `NameError` (the rounding helpers are not
imported in fixed_format_arithmetic_logic_unit.py) and `nearest` raises
`TypeError` (`nearest_integer(...)` calls the policy *class*), here at
`x = Representation(64, Q(7))`, i.e. the value 0.5. -/
theorem fixed_unary_rounding_crashes :
    FixedFormatALU.truncate ffalu7 ⟨64, q7fmt⟩ = .error .nameError ∧
    FixedFormatALU.floorOp ffalu7 ⟨64, q7fmt⟩ = .error .nameError ∧
    FixedFormatALU.ceilOp ffalu7 ⟨64, q7fmt⟩ = .error .nameError ∧
    FixedFormatALU.nearest ffalu7 ⟨64, q7fmt⟩ = .error .typeError ∧
    FixedFormatALU.truncate ffaluInt ⟨5, ⟨7, 0, true⟩⟩ = .ok ⟨5, ⟨7, 0, true⟩⟩ ∧
    FixedFormatALU.nearest ffaluInt ⟨5, ⟨7, 0, true⟩⟩ = .ok ⟨5, ⟨7, 0, true⟩⟩ := by
  refine ⟨by decide, by decide, by decide, by decide, by decide, by decide⟩

/-- Whenever `Format.represent` succeeds on a fixed-point operand, the
returned mantissa is the configured policy's reference rounding of the
operand's mantissa rescaled by `2^(source lsb - target lsb)`, and the
returned overflow flag records whether that mantissa escapes the target
mantissa interval. -/
theorem representRepr_shift_ok (f : Format) (z : PyRepresentation) (m : RMethod)
    (mant : ℤ) (u o : Bool)
    (h : Format.representRepr f z m = .ok (mant, u, o)) :
    mant = specRound m ((z.mantissa : ℚ) * (2 : ℚ) ^ (z.format_.lsb - f.lsb)) ∧
    o = f.overflows_with mant := by
  rw [Format.representRepr] at h
  by_cases hs : m.hasShift
  · rw [if_pos hs] at h
    by_cases hsign : (!f.signed && decide (z.mantissa < 0)) = true
    · rw [if_pos hsign] at h
      simp at h
    · rw [if_neg hsign] at h
      rcases hshift : m.shiftFn z.mantissa (z.format_.lsb - f.lsb) with e | mant'
      · rw [hshift] at h
        simp at h
      · rw [hshift] at h
        simp only [Except.ok.injEq, Prod.mk.injEq] at h
        obtain ⟨h1, h2, h3⟩ := h
        rw [h1] at hshift h3
        exact ⟨shiftFn_eq_specRound m z.mantissa (z.format_.lsb - f.lsb) mant hshift,
          h3.symm⟩
  · rw [if_neg hs] at h
    have hb : m = .builtinRound := by
      cases m <;> simp [RMethod.hasShift] at hs ⊢
    subst hb
    rw [Format.representVal] at h
    by_cases hsg : (!f.signed && decide (z.value < 0)) = true
    · rw [if_pos hsg] at h
      simp at h
    · rw [if_neg hsg] at h
      simp only [RMethod.applyFn] at h
      simp at h

/-- C1 (amended): `FixedFormatArithmeticLogicUnit.multiply` computes the
exact mantissa product in the doubled-width intermediate format
`(2*msb + 1, 2*lsb)` and re-quantizes with the configured rounding policy's
mantissa shift; whenever the call returns a result *and* the re-quantized
mantissa does not overflow the unit format's mantissa interval, the
result's mantissa equals the policy's rounding of
`x_mantissa * y_mantissa * 2^lsb` (that is, of
`x_mantissa * y_mantissa / 2^(lsb - 2*lsb)`), and the result carries the
unit's format.  (When the re-quantized mantissa overflows and overflow is
allowed, the configured overflow behavior rewrites the mantissa instead —
see the counterexample.) -/
theorem fixed_multiply_exact (alu : FixedFormatALU) (x y r : PyRepresentation)
    (hok : alu.multiply x y = .ok r)
    (hin : alu.format_.mantissa_interval.containsB
      (specRound alu.rounding_method
        (((x.mantissa * y.mantissa : ℤ) : ℚ) * (2 : ℚ) ^ alu.format_.lsb)) = true) :
    r.format_ = alu.format_ ∧
    r.mantissa = specRound alu.rounding_method
      (((x.mantissa * y.mantissa : ℤ) : ℚ) * (2 : ℚ) ^ alu.format_.lsb) := by
  rw [FixedFormatALU.multiply] at hok
  by_cases hfmt : (x.format_ ≠ alu.format_ ∨ y.format_ ≠ alu.format_)
  · rw [if_pos hfmt] at hok
    simp at hok
  · rw [if_neg hfmt] at hok
    rcases hzf : mkFormat (alu.format_.msb * 2 + 1) (alu.format_.lsb * 2)
        alu.format_.signed with e | zfmt
    · rw [hzf] at hok
      simp at hok
    · rw [hzf] at hok
      dsimp only at hok
      have hzfields : zfmt
          = ⟨alu.format_.msb * 2 + 1, alu.format_.lsb * 2, alu.format_.signed⟩ := by
        rw [mkFormat] at hzf
        by_cases hc : alu.format_.msb * 2 + 1 < alu.format_.lsb * 2
        · rw [if_pos hc] at hzf
          cases hzf
        · rw [if_neg hc] at hzf
          cases hzf
          rfl
      rcases hzr : mkRepr (x.mantissa * y.mantissa) zfmt with e | z
      · rw [hzr] at hok
        simp at hok
      · rw [hzr] at hok
        dsimp only at hok
        have hzfields2 : z = ⟨x.mantissa * y.mantissa, zfmt⟩ := by
          rw [mkRepr] at hzr
          by_cases hc : zfmt.mantissa_interval.containsB (x.mantissa * y.mantissa) = true
          · rw [if_pos hc] at hzr
            cases hzr
            rfl
          · rw [if_neg hc] at hzr
            cases hzr
        rcases hrep : Format.representRepr alu.format_ z alu.rounding_method
            with e | res
        · rw [hrep] at hok
          simp at hok
        · obtain ⟨mant, u, o⟩ := res
          rw [hrep] at hok
          dsimp only at hok
          obtain ⟨hmant, hover⟩ :=
            representRepr_shift_ok alu.format_ z alu.rounding_method mant u o hrep
          simp only [hzfields2, hzfields] at hmant
          rw [show alu.format_.lsb * 2 - alu.format_.lsb = alu.format_.lsb
            from by ring] at hmant
          have hcont : alu.format_.mantissa_interval.containsB mant = true := by
            rw [hmant]
            exact hin
          have ho : o = false := by
            rw [hover, Format.overflows_with, hcont]
            rfl
          by_cases hu : (u && !alu.allows_underflow) = true
          · rw [if_pos hu] at hok
            simp at hok
          · rw [if_neg hu] at hok
            simp only [ho, Bool.false_eq_true, if_false] at hok
            rw [mkRepr, if_pos hcont] at hok
            simp only [Except.ok.injEq] at hok
            subst hok
            exact ⟨rfl, hmant⟩

/-- C1 witness: on the `Q(7)` unit with nearest rounding,
`multiply(0.5, 0.5)` (mantissas 64) returns mantissa 32 in the unit's
format, equal to the rounded scaled product. -/
theorem fixed_multiply_exact_witness :
    (PyRepresentation.mk 32 q7fmt).format_ = ffalu7.format_ ∧
    (PyRepresentation.mk 32 q7fmt).mantissa = specRound ffalu7.rounding_method
      ((((PyRepresentation.mk 64 q7fmt).mantissa
          * (PyRepresentation.mk 64 q7fmt).mantissa : ℤ) : ℚ)
        * (2 : ℚ) ^ ffalu7.format_.lsb) := by
  refine fixed_multiply_exact ffalu7 ⟨64, q7fmt⟩ ⟨64, q7fmt⟩ ⟨32, q7fmt⟩ (by decide) ?_
  have h32 : specRound RMethod.nearest_integer
      ((((64 : ℤ) * 64 : ℤ) : ℚ) * (2 : ℚ) ^ (-7 : ℤ)) = 32 := by
    show ⌊(((64 : ℤ) * 64 : ℤ) : ℚ) * (2 : ℚ) ^ (-7 : ℤ) + 1 / 2⌋ = 32
    rw [← nearestShift_eq]
    decide
  show q7fmt.mantissa_interval.containsB (specRound RMethod.nearest_integer
    ((((64 : ℤ) * 64 : ℤ) : ℚ) * (2 : ℚ) ^ (-7 : ℤ))) = true
  rw [h32]
  decide

/-- C1 counterexample: the claim as stated fails when the rounded product
overflows but overflow is allowed: on the `Q(7)` unit with nearest rounding
and wraparound, `multiply(-1.0, -1.0)` (mantissas -128) raises no error and
returns mantissa -128 (the wrapped value), while the claimed R-rounded
value of `x_mantissa * y_mantissa / 2^(lsb - 2*lsb) = 16384 / 2^7` is
`128 ≠ -128`. -/
theorem fixed_multiply_overflow_wraps :
    FixedFormatALU.multiply ffalu7 ⟨-128, q7fmt⟩ ⟨-128, q7fmt⟩
      = .ok ⟨-128, q7fmt⟩ ∧
    specRound RMethod.nearest_integer
      ((((-128 : ℤ) * (-128 : ℤ) : ℤ) : ℚ) * (2 : ℚ) ^ (-7 : ℤ)) = 128 ∧
    ((-128 : ℤ) ≠ 128) := by
  refine ⟨by decide, ?_, by decide⟩
  show ⌊(((-128 : ℤ) * (-128 : ℤ) : ℤ) : ℚ) * (2 : ℚ) ^ (-7 : ℤ) + 1 / 2⌋ = 128
  rw [← nearestShift_eq]
  decide
